import Mathlib

/-!
Verification of the async-to-ngGenerator transformation engine.

The engine rewrites `async`/`await` JavaScript constructs into generator
functions wrapped by a runtime helper `_ngAsyncToGenerator`.  The Lean
definitions below are a shallow embedding of the Rust sources:

  * the AST fragment the engine manipulates (`Expr`, `ArrowBody`, `Func`,
    `Stmt`, `ModuleItem`); identifier patterns are modelled as strings and
    the span/ctxt bookkeeping fields, which the engine never reads, are
    omitted;
  * the read-only probes `HasAwaitVisitor` / `HasThisVisitor`
    (src/transforms/helpers.rs);
  * the mutating rewriters `AwaitToYieldVisitor` / `ThisCaptureVisitor`
    (src/transforms/helpers.rs), modelled as pure functions (the replacement
    flag of `ThisCaptureVisitor` becomes the second component of a pair);
  * the AST builders (src/ast_builders.rs);
  * the four construct transformers (src/transforms/fn_decl.rs,
    fn_expr.rs, method.rs);
  * the driving visitor with its scope stack and reference counter
    (src/visitor.rs).  In-place mutation becomes explicit state passing;
    the `Vec` scope stack grows at the head here (the Rust code grows at
    the tail), and `visit_mut_stmts` (enter scope / visit children / exit
    scope / splice hoisted helpers) is inlined at each statement-list site.
-/

namespace Ng

/-! ### The AST fragment (mirrors the used subset of swc ecma ast) -/

mutual
inductive Expr : Type where
  | ident (name : String)
  | thisE
  | lit (n : Nat)
  | awaitE (arg : Expr)
  | yieldE (arg : Expr) (delegate : Bool)
  | call (callee : Expr) (args : List Expr)
  | member (obj : Expr) (prop : String)
  | assign (target : String) (rhs : Expr)
  | fnE (name : Option String) (function : Func)
  | arrow (params : List String) (isAsync : Bool) (body : ArrowBody)
  deriving Repr

inductive ArrowBody : Type where
  | block (stmts : List Stmt)
  | expr (e : Expr)
  deriving Repr

/-- swc `Function`: params, optional body, `is_async`, `is_generator`. -/
inductive Func : Type where
  | mk (params : List String) (body : Option (List Stmt))
       (isAsync : Bool) (isGenerator : Bool)
  deriving Repr

inductive Stmt : Type where
  | exprStmt (e : Expr)
  | ret (arg : Option Expr)
  | varDecl (name : String) (init : Option Expr)
  | fnDecl (name : String) (function : Func)
  | block (stmts : List Stmt)
  deriving Repr
end

def Func.params : Func → List String
  | .mk p _ _ _ => p

def Func.body : Func → Option (List Stmt)
  | .mk _ b _ _ => b

def Func.isAsync : Func → Bool
  | .mk _ _ a _ => a

def Func.isGenerator : Func → Bool
  | .mk _ _ _ g => g

/-- Clear or set the `is_async` flag, leaving everything else untouched. -/
def Func.setAsync : Func → Bool → Func
  | .mk p b _ g, a => .mk p b a g

/-- swc `FnDecl` (ident + function). -/
structure FnDeclR where
  ident : String
  function : Func
  deriving Repr

/-- swc `FnExpr` (optional ident + function). -/
structure FnExprR where
  ident : Option String
  function : Func
  deriving Repr

/-- swc `ArrowExpr` (the fields the transformer reads). -/
structure ArrowR where
  params : List String
  isAsync : Bool
  body : ArrowBody
  deriving Repr

/-- swc `ClassMethod` (key + function; kind/static flags are irrelevant). -/
structure ClassMethodR where
  key : String
  function : Func
  deriving Repr

/-- swc `MethodProp` (object-literal method). -/
structure MethodPropR where
  key : String
  function : Func
  deriving Repr

/-- swc `ModuleItem`: a statement, an exported function declaration, or a
non-function module declaration (modelled by an exported var). -/
inductive ModuleItem : Type where
  | stmt (s : Stmt)
  | exportFn (name : String) (function : Func)
  | exportVar (name : String) (init : Option Expr)
  deriving Repr

/-! ### HasAwaitVisitor (src/transforms/helpers.rs, lines 50-96)

Read-only probe: does a body contain an `await` expression?  Does not
descend into nested `Function` or `ArrowExpr` nodes. -/

mutual
def hasAwaitE : Expr → Bool
  | .ident _ => false
  | .thisE => false
  | .lit _ => false
  | .awaitE _ => true
  | .yieldE a _ => hasAwaitE a
  | .call c args => hasAwaitE c || hasAwaitList args
  | .member o _ => hasAwaitE o
  | .assign _ r => hasAwaitE r
  | .fnE _ _ => false
  | .arrow _ _ _ => false

def hasAwaitList : List Expr → Bool
  | [] => false
  | e :: es => hasAwaitE e || hasAwaitList es

def hasAwaitOpt : Option Expr → Bool
  | none => false
  | some e => hasAwaitE e

def hasAwaitStmt : Stmt → Bool
  | .exprStmt e => hasAwaitE e
  | .ret a => hasAwaitOpt a
  | .varDecl _ i => hasAwaitOpt i
  | .fnDecl _ _ => false
  | .block ss => hasAwaitStmts ss

def hasAwaitStmts : List Stmt → Bool
  | [] => false
  | s :: ss => hasAwaitStmt s || hasAwaitStmts ss
end

/-! ### HasThisVisitor (src/transforms/helpers.rs, lines 107-153)

Read-only probe: does a body reference `this`?  Does not descend into
nested `Function` nodes but DOES descend into arrow bodies (arrows inherit
`this` lexically). -/

mutual
def hasThisE : Expr → Bool
  | .ident _ => false
  | .thisE => true
  | .lit _ => false
  | .awaitE a => hasThisE a
  | .yieldE a _ => hasThisE a
  | .call c args => hasThisE c || hasThisList args
  | .member o _ => hasThisE o
  | .assign _ r => hasThisE r
  | .fnE _ _ => false
  | .arrow _ _ b => hasThisArrowBody b

def hasThisList : List Expr → Bool
  | [] => false
  | e :: es => hasThisE e || hasThisList es

def hasThisOpt : Option Expr → Bool
  | none => false
  | some e => hasThisE e

def hasThisArrowBody : ArrowBody → Bool
  | .block ss => hasThisStmts ss
  | .expr e => hasThisE e

def hasThisStmt : Stmt → Bool
  | .exprStmt e => hasThisE e
  | .ret a => hasThisOpt a
  | .varDecl _ i => hasThisOpt i
  | .fnDecl _ _ => false
  | .block ss => hasThisStmts ss

def hasThisStmts : List Stmt → Bool
  | [] => false
  | s :: ss => hasThisStmt s || hasThisStmts ss
end

/-! ### AwaitToYieldVisitor (src/transforms/helpers.rs, lines 17-39)

Replaces every `await` with a non-delegating `yield` of the same operand,
children first, without descending into nested `Function` / `ArrowExpr`
nodes. -/

mutual
def a2yE : Expr → Expr
  | .ident n => .ident n
  | .thisE => .thisE
  | .lit n => .lit n
  | .awaitE a => .yieldE (a2yE a) false
  | .yieldE a d => .yieldE (a2yE a) d
  | .call c args => .call (a2yE c) (a2yList args)
  | .member o p => .member (a2yE o) p
  | .assign t r => .assign t (a2yE r)
  | .fnE n f => .fnE n f
  | .arrow p a b => .arrow p a b

def a2yList : List Expr → List Expr
  | [] => []
  | e :: es => a2yE e :: a2yList es
end

def a2yOpt : Option Expr → Option Expr
  | none => none
  | some e => some (a2yE e)

mutual
def a2yStmt : Stmt → Stmt
  | .exprStmt e => .exprStmt (a2yE e)
  | .ret a => .ret (a2yOpt a)
  | .varDecl n i => .varDecl n (a2yOpt i)
  | .fnDecl n f => .fnDecl n f
  | .block ss => .block (a2yStmts ss)

def a2yStmts : List Stmt → List Stmt
  | [] => []
  | s :: ss => a2yStmt s :: a2yStmts ss
end

/-! ### ThisCaptureVisitor (src/transforms/helpers.rs, lines 164-202)

Replaces every `this` reference with the identifier `_this`, reporting
whether at least one replacement occurred.  Does not descend into nested
`Function` nodes; DOES descend into arrow bodies. -/

mutual
def tcE : Expr → Expr × Bool
  | .ident n => (.ident n, false)
  | .thisE => (.ident "_this", true)
  | .lit n => (.lit n, false)
  | .awaitE a => let (a1, f) := tcE a; (.awaitE a1, f)
  | .yieldE a d => let (a1, f) := tcE a; (.yieldE a1 d, f)
  | .call c args =>
      let (c1, f1) := tcE c
      let (args1, f2) := tcList args
      (.call c1 args1, f1 || f2)
  | .member o p => let (o1, f) := tcE o; (.member o1 p, f)
  | .assign t r => let (r1, f) := tcE r; (.assign t r1, f)
  | .fnE n f => (.fnE n f, false)
  | .arrow p a b => let (b1, f) := tcArrowBody b; (.arrow p a b1, f)

def tcList : List Expr → List Expr × Bool
  | [] => ([], false)
  | e :: es =>
      let (e1, f1) := tcE e
      let (es1, f2) := tcList es
      (e1 :: es1, f1 || f2)

def tcOpt : Option Expr → Option Expr × Bool
  | none => (none, false)
  | some e => let (e1, f) := tcE e; (some e1, f)

def tcArrowBody : ArrowBody → ArrowBody × Bool
  | .block ss => let (ss1, f) := tcStmts ss; (.block ss1, f)
  | .expr e => let (e1, f) := tcE e; (.expr e1, f)

def tcStmt : Stmt → Stmt × Bool
  | .exprStmt e => let (e1, f) := tcE e; (.exprStmt e1, f)
  | .ret a => let (a1, f) := tcOpt a; (.ret a1, f)
  | .varDecl n i => let (i1, f) := tcOpt i; (.varDecl n i1, f)
  | .fnDecl n f => (.fnDecl n f, false)
  | .block ss => let (ss1, f) := tcStmts ss; (.block ss1, f)

def tcStmts : List Stmt → List Stmt × Bool
  | [] => ([], false)
  | s :: ss =>
      let (s1, f1) := tcStmt s
      let (ss1, f2) := tcStmts ss
      (s1 :: ss1, f1 || f2)
end

/-! ### AST builders (src/ast_builders.rs) -/

/-- `return expr;` (ast_builders.rs `return_stmt`). -/
def return_stmt (e : Expr) : Stmt := .ret (some e)

/-- expression statement (ast_builders.rs `expr_stmt`). -/
def expr_stmt (e : Expr) : Stmt := .exprStmt e

/-- `var name = init;` (ast_builders.rs `var_decl`). -/
def var_decl (name : String) (init : Expr) : Stmt := .varDecl name (some init)

/-- `var _this = this;` (ast_builders.rs `this_capture`). -/
def this_capture : Stmt := var_decl "_this" .thisE

/-- function expression with `is_async: false` (ast_builders.rs `fn_expr`). -/
def fn_expr_b (name : Option String) (params : List String)
    (body : List Stmt) (isGenerator : Bool) : Expr :=
  .fnE name (.mk params (some body) false isGenerator)

/-- `function* (params) { body }` (ast_builders.rs `generator_fn_expr`). -/
def generator_fn_expr (params : List String) (body : List Stmt) : Expr :=
  fn_expr_b none params body true

/-- `function name() { body }` expression (ast_builders.rs `regular_fn_expr`). -/
def regular_fn_expr (name : Option String) (body : List Stmt) : Expr :=
  fn_expr_b name [] body false

/-- function declaration with no params (ast_builders.rs `fn_decl`). -/
def fn_decl_b (name : String) (body : List Stmt) : FnDeclR :=
  { ident := name, function := .mk [] (some body) false false }

/-- `callee(args...)` (ast_builders.rs `call_expr`). -/
def call_expr (callee : Expr) (args : List Expr) : Expr := .call callee args

/-- `obj.method` (ast_builders.rs `member_expr`). -/
def member_expr (obj : Expr) (method : String) : Expr := .member obj method

/-- `wrapper.apply(this, arguments)` (ast_builders.rs `apply_call`). -/
def apply_call (wrapper : Expr) : Expr :=
  call_expr (member_expr wrapper "apply") [.thisE, .ident "arguments"]

/-- `wrapper()` (ast_builders.rs `immediate_call`). -/
def immediate_call (wrapper : Expr) : Expr := call_expr wrapper []

/-- `_ngAsyncToGenerator(generatorFn)` (ast_builders.rs `ng_async_wrapper`). -/
def ng_async_wrapper (generatorFn : Expr) : Expr :=
  call_expr (.ident "_ngAsyncToGenerator") [generatorFn]

/-- `left = right` (ast_builders.rs `assign_expr`). -/
def assign_expr (left : String) (right : Expr) : Expr := .assign left right

/-- `(function() { stmts })()` (ast_builders.rs `iife`). -/
def iife (stmts : List Stmt) : Expr :=
  immediate_call (regular_fn_expr none stmts)

/-- Modelled from the spec: the builder `iife_with_this_param` is imported by
src/transforms/fn_expr.rs but its definition is not among the sources.  Per
spec 4.6 (arrow case) the wrapper "takes the enclosing context as an explicit
parameter" named by the captured binding and is invoked "with `this`" at its
invocation site: `(function(_this) { stmts })(this)`. -/
def iife_with_this_param (stmts : List Stmt) : Expr :=
  call_expr (.fnE none (.mk ["_this"] (some stmts) false false)) [.thisE]

/-- Modelled from the spec: the builder `apply_call_with_captured_this` is
imported by src/transforms/fn_expr.rs but its definition is not among the
sources.  Per spec 4.6 the forwarding function "applies the captured binding
(not the call-time context)": `wrapper.apply(_this, arguments)`. -/
def apply_call_with_captured_this (wrapper : Expr) : Expr :=
  call_expr (member_expr wrapper "apply") [.ident "_this", .ident "arguments"]

/-! ### Generator builder (src/transforms/helpers.rs, lines 217-249) -/

/-- `create_generator_function`: rewrite `await` to `yield`, optionally
capture `this`, and assemble a non-async generator `Function`. -/
def create_generator_function (params : List String) (body : List Stmt)
    (captureThis : Bool) : Func × Bool :=
  let body1 := a2yStmts body
  let (body2, needsThis) :=
    if captureThis then tcStmts body1 else (body1, false)
  (.mk params (some body2) false true, needsThis)

/-! ### Function-declaration transformer (src/transforms/fn_decl.rs) -/

/-- `transform_fn_decl`: returns the (possibly mutated) declaration and the
helper declaration to hoist, if any. -/
def transform_fn_decl (decl : FnDeclR) : FnDeclR × Option FnDeclR :=
  if ¬ decl.function.isAsync then (decl, none)
  else
    match decl.function.body with
    | none => (decl, none)
    | some body =>
      if ¬ hasAwaitStmts body then
        ({ decl with function := decl.function.setAsync false }, none)
      else
        let helperName := "_" ++ decl.ident
        let (generatorFunc, _) :=
          create_generator_function decl.function.params body false
        let generatorExpr :=
          generator_fn_expr generatorFunc.params (generatorFunc.body.getD [])
        let helperFn := fn_decl_b helperName
          [ expr_stmt (assign_expr helperName (ng_async_wrapper generatorExpr)),
            return_stmt (apply_call (.ident helperName)) ]
        ({ ident := decl.ident,
           function := .mk [] (some [return_stmt (apply_call (.ident helperName))])
                         false false },
         some helperFn)

/-! ### Arrow / function-expression transformers (src/transforms/fn_expr.rs)

The Rust functions mutate the construct in place and return `Option<Expr>`;
when they return `Some`, the caller discards the mutated construct and
substitutes the expression.  We model the result as a sum: `.inl` is the
construct left in place (possibly with its async flag cleared), `.inr` is
the replacement expression. -/

/-- The `has_await` local of `transform_arrow_fn` (fn_expr.rs, lines 64-67):
a block body is checked with `HasAwaitVisitor`, an expression body only by
matching the top-level expression against `Expr::Await`. -/
def arrowHasAwaitCheck : ArrowBody → Bool
  | .block b => hasAwaitStmts b
  | .expr e => match e with | .awaitE _ => true | _ => false

/-- Body normalization of `transform_arrow_fn` (fn_expr.rs, lines 75-85):
an expression body becomes a one-statement block returning it. -/
def arrowBodyToBlock : ArrowBody → List Stmt
  | .block b => b
  | .expr e => [return_stmt e]

/-- The suspension probe as the spec describes it for arrows ("traverses
expressions depth-first", spec 4.1): an expression body is traversed in
full, not just matched at the top.  This is the spec-side reading, kept
separate from `arrowHasAwaitCheck` (what the code computes) so the two can
be compared. -/
def hasAwaitArrowBody : ArrowBody → Bool
  | .block b => hasAwaitStmts b
  | .expr e => hasAwaitE e

/-- `transform_arrow_fn`. -/
def transform_arrow_fn (arrow : ArrowR) (refName : String) : ArrowR ⊕ Expr :=
  if ¬ arrow.isAsync then .inl arrow
  else
    if !arrowHasAwaitCheck arrow.body then .inl { arrow with isAsync := false }
    else
      let body : List Stmt := arrowBodyToBlock arrow.body
      let usesThis := hasThisStmts body
      let (generatorFunc, _) := create_generator_function arrow.params body usesThis
      let generatorExpr :=
        generator_fn_expr generatorFunc.params (generatorFunc.body.getD [])
      if usesThis then
        .inr (iife_with_this_param
          [ var_decl refName (ng_async_wrapper generatorExpr),
            return_stmt (regular_fn_expr none
              [return_stmt (apply_call_with_captured_this (.ident refName))]) ])
      else
        .inr (iife
          [ var_decl refName (ng_async_wrapper generatorExpr),
            return_stmt (regular_fn_expr none
              [return_stmt (apply_call (.ident refName))]) ])

/-- `transform_fn_expr`. -/
def transform_fn_expr (fnExpr : FnExprR) (refName : String) : FnExprR ⊕ Expr :=
  if ¬ fnExpr.function.isAsync then .inl fnExpr
  else
    match fnExpr.function.body with
    | none => .inl fnExpr
    | some body =>
      if ¬ hasAwaitStmts body then
        .inl { fnExpr with function := fnExpr.function.setAsync false }
      else
        let originalIdent := fnExpr.ident
        let (generatorFunc, _) :=
          create_generator_function fnExpr.function.params body false
        let generatorExpr :=
          generator_fn_expr generatorFunc.params (generatorFunc.body.getD [])
        .inr (iife
          [ var_decl refName (ng_async_wrapper generatorExpr),
            return_stmt (regular_fn_expr originalIdent
              [return_stmt (apply_call (.ident refName))]) ])

/-! ### Method transformers (src/transforms/method.rs) -/

/-- `transform_method`: the shared body rewrite for class/object methods. -/
def transform_method (body : List Stmt) : List Stmt :=
  let (generatorFunc, needsThis) := create_generator_function [] body true
  let generatorExpr :=
    generator_fn_expr generatorFunc.params (generatorFunc.body.getD [])
  (if needsThis then [this_capture] else []) ++
    [return_stmt (immediate_call (ng_async_wrapper generatorExpr))]

/-- `transform_class_method`. -/
def transform_class_method (method : ClassMethodR) : ClassMethodR :=
  if ¬ method.function.isAsync then method
  else
    match method.function.body with
    | none => method
    | some body =>
      if ¬ hasAwaitStmts body then
        { method with function := method.function.setAsync false }
      else
        { method with
          function := .mk [] (some (transform_method body)) false
                        method.function.isGenerator }

/-- `transform_object_method`. -/
def transform_object_method (method : MethodPropR) : MethodPropR :=
  if ¬ method.function.isAsync then method
  else
    match method.function.body with
    | none => method
    | some body =>
      if ¬ hasAwaitStmts body then
        { method with function := method.function.setAsync false }
      else
        { method with
          function := .mk [] (some (transform_method body)) false
                        method.function.isGenerator }

/-! ### Hoist placement (src/visitor.rs, lines 146-196)

The insertion index is one past the last function declaration in the list
(0 if there is none); `insertPosAux` mirrors the enumerate/filter/last loop
position by position. -/

def isFnDeclStmt : Stmt → Bool
  | .fnDecl _ _ => true
  | _ => false

/-- Loop of `insert_hoisted_stmts`: walk the list with its index, remembering
`i + 1` for every function declaration seen. -/
def insertPosAux : Nat → List Stmt → Nat → Nat
  | _, [], pos => pos
  | i, s :: rest, pos =>
      insertPosAux (i + 1) rest (if isFnDeclStmt s then i + 1 else pos)

def insertPosStmts (stmts : List Stmt) : Nat := insertPosAux 0 stmts 0

/-- `insert_hoisted_stmts`: splice the hoisted declarations, in order,
starting one past the last function declaration. -/
def insert_hoisted_stmts (stmts : List Stmt) (hoisted : List Stmt) : List Stmt :=
  if hoisted.isEmpty then stmts
  else
    let pos := insertPosStmts stmts
    stmts.take pos ++ hoisted ++ stmts.drop pos

/-- Module-level notion of "function declaration": a plain one or an
exported one (src/visitor.rs, lines 175-190). -/
def isFnModuleItem : ModuleItem → Bool
  | .stmt (.fnDecl _ _) => true
  | .exportFn _ _ => true
  | _ => false

def insertPosAuxM : Nat → List ModuleItem → Nat → Nat
  | _, [], pos => pos
  | i, it :: rest, pos =>
      insertPosAuxM (i + 1) rest (if isFnModuleItem it then i + 1 else pos)

def insertPosItems (items : List ModuleItem) : Nat := insertPosAuxM 0 items 0

/-- `insert_hoisted_module_items`. -/
def insert_hoisted_module_items (items : List ModuleItem) (hoisted : List Stmt) :
    List ModuleItem :=
  if hoisted.isEmpty then items
  else
    let hoistedItems := hoisted.map ModuleItem.stmt
    let pos := insertPosItems items
    items.take pos ++ hoistedItems ++ items.drop pos

/-! ### Reference counter (src/visitor.rs, lines 26-45) -/

/-- `RefCounter::next`: the name for the current count, and the new count. -/
def nextRef (count : Nat) : String × Nat :=
  (if count = 0 then "_ref" else "_ref" ++ Nat.repr count, count + 1)

/-- The name produced by the k-th call of `RefCounter::next` in a pass. -/
def refNameAt (k : Nat) : String :=
  if k = 0 then "_ref" else "_ref" ++ Nat.repr k

/-! ### Visitor state (src/visitor.rs `ScopeStack` + `AsyncToNgGeneratorVisitor`)

The scope stack holds, per lexical level, the helper declarations pending
insertion at that level.  The innermost scope is the HEAD of the list here
(the Rust `Vec` keeps it at the tail). -/

structure St where
  stack : List (List Stmt)
  count : Nat
  deriving Repr

/-- `ScopeStack::push`: append a helper to the innermost scope (no-op on an
empty stack, matching `last_mut`). -/
def St.pushHelper (st : St) (s : Stmt) : St :=
  match st.stack with
  | [] => st
  | top :: rest => { st with stack := (top ++ [s]) :: rest }

/-- `ScopeStack::enter`. -/
def enterScope (st : St) : St := { st with stack := [] :: st.stack }

/-- `ScopeStack::exit` (pop, with `unwrap_or_default` on an empty stack). -/
def exitScope (st : St) : List Stmt × St :=
  match st.stack with
  | [] => ([], st)
  | top :: rest => (top, { st with stack := rest })

/-! ### The driving visitor (src/visitor.rs `impl VisitMut`)

Children are visited first, the transform runs second.  Statement lists
(function bodies and blocks) enter a scope before visiting their children
and flush it through hoist placement on exit; this enter/visit/exit/insert
sequence of `visit_mut_stmts` is inlined at every statement-list site so
that the recursion stays structural. -/

/-- Post-children handling of an arrow expression
(src/visitor.rs, lines 246-252). -/
def postArrow (params : List String) (isAsync : Bool) (body : ArrowBody)
    (st : St) : Expr × St :=
  if isAsync then
    let (refName, count1) := nextRef st.count
    let st1 := { st with count := count1 }
    match transform_arrow_fn ⟨params, isAsync, body⟩ refName with
    | .inl a => (.arrow a.params a.isAsync a.body, st1)
    | .inr e => (e, st1)
  else (.arrow params isAsync body, st)

/-- Post-children handling of a function expression
(src/visitor.rs, lines 254-260). -/
def postFnExpr (name : Option String) (f : Func) (st : St) : Expr × St :=
  if f.isAsync then
    let (refName, count1) := nextRef st.count
    let st1 := { st with count := count1 }
    match transform_fn_expr ⟨name, f⟩ refName with
    | .inl fe => (.fnE fe.ident fe.function, st1)
    | .inr e => (e, st1)
  else (.fnE name f, st)

mutual
/-- `visit_mut_expr`: children first, then the async arrow / function
expression transforms. -/
def visitExpr : Expr → St → Expr × St
  | .ident n, st => (.ident n, st)
  | .thisE, st => (.thisE, st)
  | .lit n, st => (.lit n, st)
  | .awaitE a, st =>
      let (a1, st1) := visitExpr a st
      (.awaitE a1, st1)
  | .yieldE a d, st =>
      let (a1, st1) := visitExpr a st
      (.yieldE a1 d, st1)
  | .call c args, st =>
      let (c1, st1) := visitExpr c st
      let (args1, st2) := visitExprList args st1
      (.call c1 args1, st2)
  | .member o p, st =>
      let (o1, st1) := visitExpr o st
      (.member o1 p, st1)
  | .assign t r, st =>
      let (r1, st1) := visitExpr r st
      (.assign t r1, st1)
  | .fnE n f, st =>
      let (f1, st1) := visitFunc f st
      postFnExpr n f1 st1
  | .arrow p a b, st =>
      let (b1, st1) := visitArrowBody b st
      postArrow p a b1 st1

def visitExprList : List Expr → St → List Expr × St
  | [], st => ([], st)
  | e :: es, st =>
      let (e1, st1) := visitExpr e st
      let (es1, st2) := visitExprList es st1
      (e1 :: es1, st2)

def visitExprOpt : Option Expr → St → Option Expr × St
  | none, st => (none, st)
  | some e, st =>
      let (e1, st1) := visitExpr e st
      (some e1, st1)

/-- Children of an arrow: a block body is a statement list (scoped), an
expression body is visited directly. -/
def visitArrowBody : ArrowBody → St → ArrowBody × St
  | .block ss, st =>
      let (ss1, st1) := visitStmtList ss (enterScope st)
      let (hoisted, st2) := exitScope st1
      (.block (insert_hoisted_stmts ss1 hoisted), st2)
  | .expr e, st =>
      let (e1, st1) := visitExpr e st
      (.expr e1, st1)

/-- Children of a `Function`: its body statement list (scoped). -/
def visitFunc : Func → St → Func × St
  | .mk p none a g, st => (.mk p none a g, st)
  | .mk p (some ss) a g, st =>
      let (ss1, st1) := visitStmtList ss (enterScope st)
      let (hoisted, st2) := exitScope st1
      (.mk p (some (insert_hoisted_stmts ss1 hoisted)) a g, st2)

/-- `visit_mut_stmt` dispatch, with `visit_mut_fn_decl` for function
declarations (children first, then `transform_fn_decl`, and the helper is
pushed onto the current scope). -/
def visitStmt : Stmt → St → Stmt × St
  | .exprStmt e, st =>
      let (e1, st1) := visitExpr e st
      (.exprStmt e1, st1)
  | .ret a, st =>
      let (a1, st1) := visitExprOpt a st
      (.ret a1, st1)
  | .varDecl n i, st =>
      let (i1, st1) := visitExprOpt i st
      (.varDecl n i1, st1)
  | .fnDecl n f, st =>
      let (f1, st1) := visitFunc f st
      let (decl1, helperOpt) := transform_fn_decl ⟨n, f1⟩
      let st2 :=
        match helperOpt with
        | none => st1
        | some h => st1.pushHelper (.fnDecl h.ident h.function)
      (.fnDecl decl1.ident decl1.function, st2)
  | .block ss, st =>
      let (ss1, st1) := visitStmtList ss (enterScope st)
      let (hoisted, st2) := exitScope st1
      (.block (insert_hoisted_stmts ss1 hoisted), st2)

def visitStmtList : List Stmt → St → List Stmt × St
  | [], st => ([], st)
  | s :: ss, st =>
      let (s1, st1) := visitStmt s st
      let (ss1, st2) := visitStmtList ss st1
      (s1 :: ss1, st2)
end

/-- `visit_mut_module_item`: an exported function declaration reaches
`visit_mut_fn_decl` through the default traversal. -/
def visitModuleItem : ModuleItem → St → ModuleItem × St
  | .stmt s, st =>
      let (s1, st1) := visitStmt s st
      (.stmt s1, st1)
  | .exportFn n f, st =>
      let (f1, st1) := visitFunc f st
      let (decl1, helperOpt) := transform_fn_decl ⟨n, f1⟩
      let st2 :=
        match helperOpt with
        | none => st1
        | some h => st1.pushHelper (.fnDecl h.ident h.function)
      (.exportFn decl1.ident decl1.function, st2)
  | .exportVar n i, st =>
      let (i1, st1) := visitExprOpt i st
      (.exportVar n i1, st1)

def visitModuleItemList : List ModuleItem → St → List ModuleItem × St
  | [], st => ([], st)
  | it :: its, st =>
      let (it1, st1) := visitModuleItem it st
      let (its1, st2) := visitModuleItemList its st1
      (it1 :: its1, st2)

/-- `visit_mut_module_items`: scoped like a statement list, flushed through
`insert_hoisted_module_items`. -/
def visitModuleItems (items : List ModuleItem) (st : St) :
    List ModuleItem × St :=
  let (items1, st1) := visitModuleItemList items (enterScope st)
  let (hoisted, st2) := exitScope st1
  (insert_hoisted_module_items items1 hoisted, st2)

/-- One whole transformation pass over a module
(`AsyncToNgGeneratorVisitor::new()` starts with one scope and count 0). -/
def visitModule (items : List ModuleItem) : List ModuleItem :=
  (visitModuleItems items { stack := [[]], count := 0 }).1

/-! ### Name occurrence

Whether a given string occurs anywhere in a tree as an identifier, a
parameter, a declared name, a member property, or an assignment target.
Used to observe which generated reference names appear in an output. -/

mutual
def mentionsE (name : String) : Expr → Bool
  | .ident n => n == name
  | .thisE => false
  | .lit _ => false
  | .awaitE a => mentionsE name a
  | .yieldE a _ => mentionsE name a
  | .call c args => mentionsE name c || mentionsList name args
  | .member o p => mentionsE name o || p == name
  | .assign t r => t == name || mentionsE name r
  | .fnE n f => n == some name || mentionsFunc name f
  | .arrow p _ b => p.contains name || mentionsArrowBody name b

def mentionsList (name : String) : List Expr → Bool
  | [] => false
  | e :: es => mentionsE name e || mentionsList name es

def mentionsOpt (name : String) : Option Expr → Bool
  | none => false
  | some e => mentionsE name e

def mentionsArrowBody (name : String) : ArrowBody → Bool
  | .block ss => mentionsStmts name ss
  | .expr e => mentionsE name e

def mentionsFunc (name : String) : Func → Bool
  | .mk p b _ _ => p.contains name || mentionsOptStmts name b

def mentionsOptStmts (name : String) : Option (List Stmt) → Bool
  | none => false
  | some ss => mentionsStmts name ss

def mentionsStmt (name : String) : Stmt → Bool
  | .exprStmt e => mentionsE name e
  | .ret a => mentionsOpt name a
  | .varDecl n i => n == name || mentionsOpt name i
  | .fnDecl n f => n == name || mentionsFunc name f
  | .block ss => mentionsStmts name ss

def mentionsStmts (name : String) : List Stmt → Bool
  | [] => false
  | s :: ss => mentionsStmt name s || mentionsStmts name ss
end

def mentionsItem (name : String) : ModuleItem → Bool
  | .stmt s => mentionsStmt name s
  | .exportFn n f => n == name || mentionsFunc name f
  | .exportVar n i => n == name || mentionsOpt name i

def mentionsItems (name : String) (items : List ModuleItem) : Bool :=
  items.any (mentionsItem name)

/-! ### Decimal representation facts

`RefCounter::next` builds names with `format!("_ref{}", count)`, i.e.
`"_ref" ++ Nat.repr count`.  To reason about distinctness of the generated
names we need that `Nat.repr` is injective. -/

/-- Big-endian decimal digits of a natural number. -/
def digitsStr (n : Nat) : List Char :=
  if _h : n < 10 then [Nat.digitChar n]
  else digitsStr (n / 10) ++ [Nat.digitChar (n % 10)]
  termination_by n
  decreasing_by exact Nat.div_lt_self (by omega) (by norm_num)

theorem toDigitsCore_eq_digitsStr :
    ∀ (fuel n : Nat) (acc : List Char), n < fuel →
      Nat.toDigitsCore 10 fuel n acc = digitsStr n ++ acc := by
  intro fuel
  induction fuel with
  | zero => intro n acc h; omega
  | succ f ih =>
    intro n acc h
    by_cases h10 : n / 10 = 0
    · have hlt : n < 10 := by omega
      have hmod : n % 10 = n := Nat.mod_eq_of_lt hlt
      simp only [Nat.toDigitsCore, h10, if_true, hmod]
      rw [digitsStr]
      simp [hlt]
    · have hge : ¬ n < 10 := by omega
      have hpos : 0 < n := by omega
      have hdlt : n / 10 < f := by
        have := Nat.div_lt_self hpos (by norm_num : 1 < 10)
        omega
      simp only [Nat.toDigitsCore, h10, if_false]
      rw [ih (n / 10) _ hdlt]
      conv_rhs => rw [digitsStr]
      simp [hge]

theorem repr_eq_digitsStr (n : Nat) : Nat.repr n = (digitsStr n).asString := by
  unfold Nat.repr Nat.toDigits
  rw [toDigitsCore_eq_digitsStr (n + 1) n [] (Nat.lt_succ_self n)]
  simp

def charVal (c : Char) : Nat := c.toNat - 48

def listVal (l : List Char) : Nat := l.foldl (fun a c => a * 10 + charVal c) 0

theorem charVal_digitChar : ∀ d, d < 10 → charVal (Nat.digitChar d) = d := by decide

theorem foldl_val_append (l : List Char) (c : Char) (a : Nat) :
    (l ++ [c]).foldl (fun a c => a * 10 + charVal c) a =
      l.foldl (fun a c => a * 10 + charVal c) a * 10 + charVal c := by
  rw [List.foldl_append]
  rfl

theorem listVal_digitsStr : ∀ n, listVal (digitsStr n) = n := by
  intro n
  induction n using Nat.strong_induction_on with
  | _ n ih =>
    rw [digitsStr]
    by_cases hlt : n < 10
    · simp only [hlt, dif_pos, listVal, List.foldl]
      rw [charVal_digitChar n hlt]
      omega
    · have hpos : 0 < n := by omega
      simp only [hlt, dif_neg, not_false_iff, listVal]
      rw [foldl_val_append]
      have := ih (n / 10) (Nat.div_lt_self hpos (by norm_num))
      simp only [listVal] at this
      rw [this, charVal_digitChar (n % 10) (Nat.mod_lt n (by norm_num))]
      omega

theorem nat_repr_injective {m n : Nat} (h : Nat.repr m = Nat.repr n) : m = n := by
  rw [repr_eq_digitsStr, repr_eq_digitsStr] at h
  have h2 : digitsStr m = digitsStr n := List.asString_inj.mp h
  have := congrArg listVal h2
  rwa [listVal_digitsStr, listVal_digitsStr] at this

theorem digitsStr_ne_nil (n : Nat) : digitsStr n ≠ [] := by
  rw [digitsStr]
  by_cases hlt : n < 10 <;> simp [hlt]

theorem repr_length_pos (n : Nat) : 0 < (Nat.repr n).length := by
  rw [repr_eq_digitsStr]
  have hne := digitsStr_ne_nil n
  cases hd : digitsStr n with
  | nil => exact absurd hd hne
  | cons c l => simp [hd, List.asString, String.length]

theorem refNameAt_injective {i j : Nat} (h : i ≠ j) : refNameAt i ≠ refNameAt j := by
  intro he
  unfold refNameAt at he
  by_cases hi : i = 0 <;> by_cases hj : j = 0
  · exact h (hi.trans hj.symm)
  · simp only [hi, if_true, hj, if_false] at he
    have hlen := congrArg String.length he
    rw [String.length_append] at hlen
    have hp := repr_length_pos j
    omega
  · simp only [hi, if_false, hj, if_true] at he
    have hlen := congrArg String.length he
    rw [String.length_append] at hlen
    have hp := repr_length_pos i
    omega
  · simp only [hi, hj, if_false] at he
    have hd := congrArg String.data he
    rw [String.data_append, String.data_append] at hd
    have hcancel : (Nat.repr i).data = (Nat.repr j).data := List.append_cancel_left hd
    have heq : Nat.repr i = Nat.repr j := by
      cases hri : Nat.repr i
      cases hrj : Nat.repr j
      simp_all
    exact h (nat_repr_injective heq)



mutual
def eraseE : Expr → Expr
  | .ident n => .ident n
  | .thisE => .thisE
  | .lit n => .lit n
  | .awaitE a => .yieldE (eraseE a) false
  | .yieldE a d => .yieldE (eraseE a) d
  | .call c args => .call (eraseE c) (eraseList args)
  | .member o p => .member (eraseE o) p
  | .assign t r => .assign t (eraseE r)
  | .fnE n f => .fnE n (eraseFunc f)
  | .arrow p a b => .arrow p a (eraseArrowBody b)

def eraseList : List Expr → List Expr
  | [] => []
  | e :: es => eraseE e :: eraseList es

def eraseOpt : Option Expr → Option Expr
  | none => none
  | some e => some (eraseE e)

def eraseArrowBody : ArrowBody → ArrowBody
  | .block ss => .block (eraseStmts ss)
  | .expr e => .expr (eraseE e)

def eraseFunc : Func → Func
  | .mk p b a g => .mk p (eraseOptStmts b) a g

def eraseOptStmts : Option (List Stmt) → Option (List Stmt)
  | none => none
  | some ss => some (eraseStmts ss)

def eraseStmt : Stmt → Stmt
  | .exprStmt e => .exprStmt (eraseE e)
  | .ret a => .ret (eraseOpt a)
  | .varDecl n i => .varDecl n (eraseOpt i)
  | .fnDecl n f => .fnDecl n (eraseFunc f)
  | .block ss => .block (eraseStmts ss)

def eraseStmts : List Stmt → List Stmt
  | [] => []
  | s :: ss => eraseStmt s :: eraseStmts ss
end

theorem hasAwaitE_a2yE : ∀ e, hasAwaitE (a2yE e) = false := by
  refine a2yE.induct (fun e => hasAwaitE (a2yE e) = false)
    (fun es => hasAwaitList (a2yList es) = false)
    ?_ ?_ ?_ ?_ ?_ ?_ ?_ ?_ ?_ ?_ ?_ ?_
  all_goals intros
  all_goals simp_all [a2yE, a2yList, hasAwaitE, hasAwaitList]

theorem hasAwaitList_a2yList : ∀ es, hasAwaitList (a2yList es) = false := by
  intro es
  induction es with
  | nil => rfl
  | cons e es ih => simp [a2yList, hasAwaitList, hasAwaitE_a2yE, ih]

theorem hasAwaitOpt_a2yOpt : ∀ a, hasAwaitOpt (a2yOpt a) = false := by
  intro a
  cases a with
  | none => rfl
  | some e => simp [a2yOpt, hasAwaitOpt, hasAwaitE_a2yE]

theorem hasAwaitStmt_a2yStmt : ∀ s, hasAwaitStmt (a2yStmt s) = false := by
  refine a2yStmt.induct (fun s => hasAwaitStmt (a2yStmt s) = false)
    (fun ss => hasAwaitStmts (a2yStmts ss) = false)
    ?_ ?_ ?_ ?_ ?_ ?_ ?_
  all_goals intros
  all_goals simp_all [a2yStmt, a2yStmts, hasAwaitStmt, hasAwaitStmts,
    hasAwaitE_a2yE, hasAwaitOpt_a2yOpt]

theorem hasAwaitStmts_a2yStmts : ∀ ss, hasAwaitStmts (a2yStmts ss) = false := by
  intro ss
  induction ss with
  | nil => rfl
  | cons s ss ih => simp [a2yStmts, hasAwaitStmts, hasAwaitStmt_a2yStmt, ih]

theorem eraseE_a2yE : ∀ e, eraseE (a2yE e) = eraseE e := by
  refine a2yE.induct (fun e => eraseE (a2yE e) = eraseE e)
    (fun es => eraseList (a2yList es) = eraseList es)
    ?_ ?_ ?_ ?_ ?_ ?_ ?_ ?_ ?_ ?_ ?_ ?_
  all_goals intros
  all_goals simp_all [a2yE, a2yList, eraseE, eraseList]

theorem eraseOpt_a2yOpt : ∀ a, eraseOpt (a2yOpt a) = eraseOpt a := by
  intro a
  cases a with
  | none => rfl
  | some e => simp [a2yOpt, eraseOpt, eraseE_a2yE]

theorem eraseStmt_a2yStmt : ∀ s, eraseStmt (a2yStmt s) = eraseStmt s := by
  refine a2yStmt.induct (fun s => eraseStmt (a2yStmt s) = eraseStmt s)
    (fun ss => eraseStmts (a2yStmts ss) = eraseStmts ss)
    ?_ ?_ ?_ ?_ ?_ ?_ ?_
  all_goals intros
  all_goals simp_all [a2yStmt, a2yStmts, eraseStmt, eraseStmts,
    eraseE_a2yE, eraseOpt_a2yOpt]

theorem eraseStmts_a2yStmts : ∀ ss, eraseStmts (a2yStmts ss) = eraseStmts ss := by
  intro ss
  induction ss with
  | nil => rfl
  | cons s ss ih => simp [a2yStmts, eraseStmts, eraseStmt_a2yStmt, ih]



/-- Append pending helpers to the innermost scope frame (no-op on an empty
stack), as `ScopeStack::push` does. -/
def topAppend : List (List Stmt) → List Stmt → List (List Stmt)
  | [], _ => []
  | t :: r, hs => (t ++ hs) :: r

theorem topAppend_nil (st : List (List Stmt)) : topAppend st [] = st := by
  cases st <;> simp [topAppend]

theorem topAppend_topAppend (st : List (List Stmt)) (h1 h2 : List Stmt) :
    topAppend (topAppend st h1) h2 = topAppend st (h1 ++ h2) := by
  cases st <;> simp [topAppend]

theorem pushHelper_stack (st : St) (x : Stmt) :
    (st.pushHelper x).stack = topAppend st.stack [x] := by
  cases st with
  | mk stack count => cases stack <;> simp [St.pushHelper, topAppend]

theorem postArrow_stack (p : List String) (a : Bool) (b : ArrowBody) (st : St) :
    (postArrow p a b st).2.stack = st.stack := by
  unfold postArrow
  split
  · rcases h : transform_arrow_fn ⟨p, a, b⟩ (nextRef st.count).1 with ar | e <;> simp [h]
  · rfl

theorem postFnExpr_stack (n : Option String) (f : Func) (st : St) :
    (postFnExpr n f st).2.stack = st.stack := by
  unfold postFnExpr
  split
  · rcases h : transform_fn_expr ⟨n, f⟩ (nextRef st.count).1 with fe | e <;> simp [h]
  · rfl

/-- Stack discipline of the visitor, proved by mutual functional induction:
expressions, arrow bodies, functions and (scoped) child lists leave the
scope stack exactly as they found it, while a single statement can only
append helper declarations to the innermost frame. -/
theorem visit_stack_all :
    (∀ (e : Expr), St → ∀ s : St, (visitExpr e s).2.stack = s.stack) ∧
    (∀ (b : ArrowBody), St → ∀ s : St, (visitArrowBody b s).2.stack = s.stack) ∧
    (∀ (ss : List Stmt), St → ∀ s : St,
      ∃ hs, (visitStmtList ss s).2.stack = topAppend s.stack hs) ∧
    (∀ (t : Stmt), St → ∀ s : St,
      ∃ hs, (visitStmt t s).2.stack = topAppend s.stack hs) ∧
    (∀ (f : Func), St → ∀ s : St, (visitFunc f s).2.stack = s.stack) ∧
    (∀ (a : Option Expr), St → ∀ s : St, (visitExprOpt a s).2.stack = s.stack) ∧
    (∀ (es : List Expr), St → ∀ s : St, (visitExprList es s).2.stack = s.stack) := by
  refine visitExpr.mutual_induct
    (fun e _ => ∀ s : St, (visitExpr e s).2.stack = s.stack)
    (fun b _ => ∀ s : St, (visitArrowBody b s).2.stack = s.stack)
    (fun ss _ => ∀ s : St, ∃ hs, (visitStmtList ss s).2.stack = topAppend s.stack hs)
    (fun t _ => ∀ s : St, ∃ hs, (visitStmt t s).2.stack = topAppend s.stack hs)
    (fun f _ => ∀ s : St, (visitFunc f s).2.stack = s.stack)
    (fun a _ => ∀ s : St, (visitExprOpt a s).2.stack = s.stack)
    (fun es _ => ∀ s : St, (visitExprList es s).2.stack = s.stack)
    ?_ ?_ ?_ ?_ ?_ ?_ ?_ ?_ ?_ ?_ ?_ ?_ ?_ ?_ ?_ ?_ ?_ ?_ ?_ ?_ ?_ ?_ ?_ ?_ ?_
  -- ident
  · intro n st s; simp [visitExpr]
  -- thisE
  · intro st s; simp [visitExpr]
  -- lit
  · intro n st s; simp [visitExpr]
  -- awaitE
  · intro a st a1 st1 _hv ih s
    rcases hv : visitExpr a s with ⟨x, t⟩
    have h2 : t.stack = s.stack := by have := ih s; rw [hv] at this; exact this
    simp only [visitExpr, hv]
    exact h2
  -- yieldE
  · intro a d st a1 st1 _hv ih s
    rcases hv : visitExpr a s with ⟨x, t⟩
    have h2 : t.stack = s.stack := by have := ih s; rw [hv] at this; exact this
    simp only [visitExpr, hv]
    exact h2
  -- call
  · intro c args st a1 st1 _h1 args1 st2 _h2 ihc iha s
    rcases hv : visitExpr c s with ⟨c2, t⟩
    rcases hl : visitExprList args t with ⟨args2, u⟩
    have h3 : t.stack = s.stack := by have := ihc s; rw [hv] at this; exact this
    have h4 : u.stack = t.stack := by have := iha t; rw [hl] at this; exact this
    simp only [visitExpr, hv, hl]
    exact h4.trans h3
  -- member
  · intro o p st a1 st1 _hv ih s
    rcases hv : visitExpr o s with ⟨x, t⟩
    have h2 : t.stack = s.stack := by have := ih s; rw [hv] at this; exact this
    simp only [visitExpr, hv]
    exact h2
  -- assign
  · intro t r st a1 st1 _hv ih s
    rcases hv : visitExpr r s with ⟨x, u⟩
    have h2 : u.stack = s.stack := by have := ih s; rw [hv] at this; exact this
    simp only [visitExpr, hv]
    exact h2
  -- fnE
  · intro n f st f1 st1 _hv ih s
    rcases hv : visitFunc f s with ⟨f2, t⟩
    have h2 : t.stack = s.stack := by have := ih s; rw [hv] at this; exact this
    simp only [visitExpr, hv]
    rw [postFnExpr_stack]
    exact h2
  -- arrow
  · intro p a b st b1 st1 _hv ih s
    rcases hv : visitArrowBody b s with ⟨b2, t⟩
    have h2 : t.stack = s.stack := by have := ih s; rw [hv] at this; exact this
    simp only [visitExpr, hv]
    rw [postArrow_stack]
    exact h2
  -- arrow body: block (scoped)
  · intro ss st ho1 st2 _hv ho2 st3 _he ih s
    rcases hv : visitStmtList ss (enterScope s) with ⟨ss1, t⟩
    obtain ⟨hs, hst⟩ := ih (enterScope s)
    rw [hv] at hst
    have hts : t.stack = hs :: s.stack := by
      have h5 : t.stack = topAppend ([] :: s.stack) hs := hst
      simpa [topAppend] using h5
    simp only [visitArrowBody, hv]
    rcases t with ⟨tst, tc⟩
    simp only at hts
    subst hts
    simp [exitScope]
  -- arrow body: expr
  · intro e st a1 st1 _hv ih s
    rcases hv : visitExpr e s with ⟨x, t⟩
    have h2 : t.stack = s.stack := by have := ih s; rw [hv] at this; exact this
    simp only [visitArrowBody, hv]
    exact h2
  -- func: no body
  · intro p a g st s; simp [visitFunc]
  -- func: some body (scoped)
  · intro p ss a g st ho1 st2 _hv ho2 st3 _he ih s
    rcases hv : visitStmtList ss (enterScope s) with ⟨ss1, t⟩
    obtain ⟨hs, hst⟩ := ih (enterScope s)
    rw [hv] at hst
    have hts : t.stack = hs :: s.stack := by
      have h5 : t.stack = topAppend ([] :: s.stack) hs := hst
      simpa [topAppend] using h5
    simp only [visitFunc, hv]
    rcases t with ⟨tst, tc⟩
    simp only at hts
    subst hts
    simp [exitScope]
  -- stmt: exprStmt
  · intro e st a1 st1 _hv ih s
    rcases hv : visitExpr e s with ⟨x, t⟩
    have h2 : t.stack = s.stack := by have := ih s; rw [hv] at this; exact this
    refine ⟨[], ?_⟩
    simp only [visitStmt, hv]
    rw [topAppend_nil]
    exact h2
  -- stmt: ret
  · intro a st a1 st1 _hv ih s
    rcases hv : visitExprOpt a s with ⟨x, t⟩
    have h2 : t.stack = s.stack := by have := ih s; rw [hv] at this; exact this
    refine ⟨[], ?_⟩
    simp only [visitStmt, hv]
    rw [topAppend_nil]
    exact h2
  -- stmt: varDecl
  · intro n i st a1 st1 _hv ih s
    rcases hv : visitExprOpt i s with ⟨x, t⟩
    have h2 : t.stack = s.stack := by have := ih s; rw [hv] at this; exact this
    refine ⟨[], ?_⟩
    simp only [visitStmt, hv]
    rw [topAppend_nil]
    exact h2
  -- stmt: fnDecl
  · intro n f st f1 st1 _hv decl1 helperOpt _ht ih s
    rcases hv : visitFunc f s with ⟨f2, t⟩
    have hp : t.stack = s.stack := by have := ih s; rw [hv] at this; exact this
    rcases ht : transform_fn_decl ⟨n, f2⟩ with ⟨d2, hOpt⟩
    cases hOpt with
    | none =>
      refine ⟨[], ?_⟩
      simp only [visitStmt, hv, ht]
      rw [topAppend_nil]
      exact hp
    | some h =>
      refine ⟨[.fnDecl h.ident h.function], ?_⟩
      simp only [visitStmt, hv, ht]
      rw [pushHelper_stack, hp]
  -- stmt: block (scoped)
  · intro ss st ho1 st2 _hv ho2 st3 _he ih s
    rcases hv : visitStmtList ss (enterScope s) with ⟨ss1, t⟩
    obtain ⟨hs, hst⟩ := ih (enterScope s)
    rw [hv] at hst
    have hts : t.stack = hs :: s.stack := by
      have h5 : t.stack = topAppend ([] :: s.stack) hs := hst
      simpa [topAppend] using h5
    refine ⟨[], ?_⟩
    simp only [visitStmt, hv]
    rcases t with ⟨tst, tc⟩
    simp only at hts
    subst hts
    simp [exitScope, topAppend_nil]
  -- exprList nil
  · intro st s; simp [visitExprList]
  -- exprList cons
  · intro e es st a1 st1 _h1 args1 st2 _h2 ihe ihl s
    rcases hv : visitExpr e s with ⟨e2, t⟩
    rcases hl : visitExprList es t with ⟨es2, u⟩
    have h3 : t.stack = s.stack := by have := ihe s; rw [hv] at this; exact this
    have h4 : u.stack = t.stack := by have := ihl t; rw [hl] at this; exact this
    simp only [visitExprList, hv, hl]
    exact h4.trans h3
  -- stmtList nil
  · intro st s; exact ⟨[], by simp [visitStmtList, topAppend_nil]⟩
  -- stmtList cons
  · intro s0 ss st s1 st1 _h1 ho st2 _h2 ihs ihl s
    rcases hv : visitStmt s0 s with ⟨t1, u⟩
    rcases hl : visitStmtList ss u with ⟨ss2, v⟩
    obtain ⟨hs1, e1⟩ := ihs s
    rw [hv] at e1
    obtain ⟨hs2, e2⟩ := ihl u
    rw [hl] at e2
    refine ⟨hs1 ++ hs2, ?_⟩
    simp only [visitStmtList, hv, hl]
    have e1b : u.stack = topAppend s.stack hs1 := e1
    have e2b : v.stack = topAppend u.stack hs2 := e2
    rw [e2b, e1b, topAppend_topAppend]
  -- exprOpt none
  · intro st s; simp [visitExprOpt]
  -- exprOpt some
  · intro e st a1 st1 _hv ih s
    rcases hv : visitExpr e s with ⟨x, t⟩
    have h2 : t.stack = s.stack := by have := ih s; rw [hv] at this; exact this
    simp only [visitExprOpt, hv]
    exact h2

theorem visitExpr_stack (e : Expr) (s : St) : (visitExpr e s).2.stack = s.stack :=
  visit_stack_all.1 e s s

theorem visitFunc_stack (f : Func) (s : St) : (visitFunc f s).2.stack = s.stack :=
  visit_stack_all.2.2.2.2.1 f s s

theorem visitStmt_stack (t : Stmt) (s : St) :
    ∃ hs, (visitStmt t s).2.stack = topAppend s.stack hs :=
  visit_stack_all.2.2.2.1 t s s

theorem visitStmtList_stack (ss : List Stmt) (s : St) :
    ∃ hs, (visitStmtList ss s).2.stack = topAppend s.stack hs :=
  visit_stack_all.2.2.1 ss s s

theorem visitExprOpt_stack (a : Option Expr) (s : St) :
    (visitExprOpt a s).2.stack = s.stack :=
  visit_stack_all.2.2.2.2.2.1 a s s

theorem visitModuleItem_stack (it : ModuleItem) (s : St) :
    ∃ hs, (visitModuleItem it s).2.stack = topAppend s.stack hs := by
  cases it with
  | stmt t =>
    rcases hv : visitStmt t s with ⟨t1, u⟩
    obtain ⟨hs, e1⟩ := visitStmt_stack t s
    rw [hv] at e1
    exact ⟨hs, by simp only [visitModuleItem, hv]; exact e1⟩
  | exportFn n f =>
    rcases hv : visitFunc f s with ⟨f2, t⟩
    have hp : t.stack = s.stack := by have := visitFunc_stack f s; rw [hv] at this; exact this
    rcases ht : transform_fn_decl ⟨n, f2⟩ with ⟨d2, hOpt⟩
    cases hOpt with
    | none =>
      refine ⟨[], ?_⟩
      simp only [visitModuleItem, hv, ht]
      rw [topAppend_nil]
      exact hp
    | some h =>
      refine ⟨[.fnDecl h.ident h.function], ?_⟩
      simp only [visitModuleItem, hv, ht]
      rw [pushHelper_stack, hp]
  | exportVar n i =>
    rcases hv : visitExprOpt i s with ⟨i1, t⟩
    have hp : t.stack = s.stack := by have := visitExprOpt_stack i s; rw [hv] at this; exact this
    refine ⟨[], ?_⟩
    simp only [visitModuleItem, hv]
    rw [topAppend_nil]
    exact hp

theorem visitModuleItemList_stack (items : List ModuleItem) (s : St) :
    ∃ hs, (visitModuleItemList items s).2.stack = topAppend s.stack hs := by
  induction items generalizing s with
  | nil => exact ⟨[], by simp [visitModuleItemList, topAppend_nil]⟩
  | cons it its ih =>
    rcases hv : visitModuleItem it s with ⟨it1, u⟩
    rcases hl : visitModuleItemList its u with ⟨its1, v⟩
    obtain ⟨hs1, e1⟩ := visitModuleItem_stack it s
    rw [hv] at e1
    obtain ⟨hs2, e2⟩ := ih u
    rw [hl] at e2
    refine ⟨hs1 ++ hs2, ?_⟩
    simp only [visitModuleItemList, hv, hl]
    have e1b : u.stack = topAppend s.stack hs1 := e1
    have e2b : v.stack = topAppend u.stack hs2 := e2
    rw [e2b, e1b, topAppend_topAppend]

theorem visitModuleItems_stack (items : List ModuleItem) (s : St) :
    (visitModuleItems items s).2.stack = s.stack := by
  rcases hv : visitModuleItemList items (enterScope s) with ⟨its1, t⟩
  obtain ⟨hs, hst⟩ := visitModuleItemList_stack items (enterScope s)
  rw [hv] at hst
  have hts : t.stack = hs :: s.stack := by
    have h5 : t.stack = topAppend ([] :: s.stack) hs := hst
    simpa [topAppend] using h5
  simp only [visitModuleItems, hv]
  rcases t with ⟨tst, tc⟩
  simp only at hts
  subst hts
  simp [exitScope]



/-- The replacement flag of `ThisCaptureVisitor` coincides with the
`HasThisVisitor` probe, and after capture no `this` is left visible to the
probe. -/
theorem tc_flag_all :
    (∀ e : Expr, (tcE e).2 = hasThisE e ∧ hasThisE (tcE e).1 = false) ∧
    (∀ b : ArrowBody, (tcArrowBody b).2 = hasThisArrowBody b ∧
      hasThisArrowBody (tcArrowBody b).1 = false) ∧
    (∀ ss : List Stmt, (tcStmts ss).2 = hasThisStmts ss ∧
      hasThisStmts (tcStmts ss).1 = false) ∧
    (∀ s : Stmt, (tcStmt s).2 = hasThisStmt s ∧ hasThisStmt (tcStmt s).1 = false) ∧
    (∀ a : Option Expr, (tcOpt a).2 = hasThisOpt a ∧
      hasThisOpt (tcOpt a).1 = false) ∧
    (∀ es : List Expr, (tcList es).2 = hasThisList es ∧
      hasThisList (tcList es).1 = false) := by
  refine tcE.mutual_induct
    (fun e => (tcE e).2 = hasThisE e ∧ hasThisE (tcE e).1 = false)
    (fun b => (tcArrowBody b).2 = hasThisArrowBody b ∧
      hasThisArrowBody (tcArrowBody b).1 = false)
    (fun ss => (tcStmts ss).2 = hasThisStmts ss ∧ hasThisStmts (tcStmts ss).1 = false)
    (fun s => (tcStmt s).2 = hasThisStmt s ∧ hasThisStmt (tcStmt s).1 = false)
    (fun a => (tcOpt a).2 = hasThisOpt a ∧ hasThisOpt (tcOpt a).1 = false)
    (fun es => (tcList es).2 = hasThisList es ∧ hasThisList (tcList es).1 = false)
    ?_ ?_ ?_ ?_ ?_ ?_ ?_ ?_ ?_ ?_ ?_ ?_ ?_ ?_ ?_ ?_ ?_ ?_ ?_ ?_ ?_ ?_ ?_
  all_goals intros
  all_goals simp_all [tcE, tcList, tcOpt, tcArrowBody, tcStmt, tcStmts,
    hasThisE, hasThisList, hasThisOpt, hasThisArrowBody, hasThisStmt, hasThisStmts]

theorem tcStmts_flag (ss : List Stmt) : (tcStmts ss).2 = hasThisStmts ss :=
  (tc_flag_all.2.2.1 ss).1

theorem hasThis_tcStmts (ss : List Stmt) : hasThisStmts (tcStmts ss).1 = false :=
  (tc_flag_all.2.2.1 ss).2

/-- `AwaitToYieldVisitor` neither adds nor removes `this` references. -/
theorem hasThisE_a2yE : ∀ e, hasThisE (a2yE e) = hasThisE e := by
  refine a2yE.induct (fun e => hasThisE (a2yE e) = hasThisE e)
    (fun es => hasThisList (a2yList es) = hasThisList es)
    ?_ ?_ ?_ ?_ ?_ ?_ ?_ ?_ ?_ ?_ ?_ ?_
  all_goals intros
  all_goals simp_all [a2yE, a2yList, hasThisE, hasThisList]

theorem hasThisOpt_a2yOpt : ∀ a, hasThisOpt (a2yOpt a) = hasThisOpt a := by
  intro a
  cases a with
  | none => rfl
  | some e => simp [a2yOpt, hasThisOpt, hasThisE_a2yE]

theorem hasThisStmt_a2yStmt : ∀ s, hasThisStmt (a2yStmt s) = hasThisStmt s := by
  refine a2yStmt.induct (fun s => hasThisStmt (a2yStmt s) = hasThisStmt s)
    (fun ss => hasThisStmts (a2yStmts ss) = hasThisStmts ss)
    ?_ ?_ ?_ ?_ ?_ ?_ ?_
  all_goals intros
  all_goals simp_all [a2yStmt, a2yStmts, hasThisStmt, hasThisStmts,
    hasThisE_a2yE, hasThisOpt_a2yOpt]

theorem hasThisStmts_a2yStmts : ∀ ss, hasThisStmts (a2yStmts ss) = hasThisStmts ss := by
  intro ss
  induction ss with
  | nil => rfl
  | cons s ss ih => simp [a2yStmts, hasThisStmts, hasThisStmt_a2yStmt, ih]



theorem insertPosAux_append (i : Nat) (l1 l2 : List Stmt) (p : Nat) :
    insertPosAux i (l1 ++ l2) p = insertPosAux (i + l1.length) l2 (insertPosAux i l1 p) := by
  induction l1 generalizing i p with
  | nil => simp [insertPosAux]
  | cons s rest ih =>
    simp only [List.cons_append, insertPosAux, List.length_cons, List.append_eq]
    rw [ih]
    have h2 : i + 1 + rest.length = i + (rest.length + 1) := by omega
    rw [h2]

theorem insertPosAux_no_fn (i : Nat) (l : List Stmt) (p : Nat)
    (h : ∀ s ∈ l, isFnDeclStmt s = false) : insertPosAux i l p = p := by
  induction l generalizing i with
  | nil => rfl
  | cons s rest ih =>
    have hs := h s (List.mem_cons_self s rest)
    simp only [insertPosAux, hs, if_neg]
    exact ih (i + 1) fun t ht => h t (List.mem_cons_of_mem s ht)

theorem insertPosStmts_no_fn (stmts : List Stmt)
    (h : ∀ s ∈ stmts, isFnDeclStmt s = false) : insertPosStmts stmts = 0 :=
  insertPosAux_no_fn 0 stmts 0 h

theorem insertPosStmts_last_fn (pre : List Stmt) (fd : Stmt) (post : List Stmt)
    (hfd : isFnDeclStmt fd = true) (hpost : ∀ s ∈ post, isFnDeclStmt s = false) :
    insertPosStmts (pre ++ fd :: post) = pre.length + 1 := by
  unfold insertPosStmts
  rw [insertPosAux_append]
  simp only [insertPosAux, hfd, if_pos, Nat.zero_add]
  exact insertPosAux_no_fn _ post _ hpost

theorem insert_hoisted_stmts_eq (stmts hoisted : List Stmt) :
    insert_hoisted_stmts stmts hoisted =
      stmts.take (insertPosStmts stmts) ++ hoisted ++ stmts.drop (insertPosStmts stmts) := by
  unfold insert_hoisted_stmts
  split
  · next h => simp_all
  · rfl

theorem insertPosAuxM_append (i : Nat) (l1 l2 : List ModuleItem) (p : Nat) :
    insertPosAuxM i (l1 ++ l2) p = insertPosAuxM (i + l1.length) l2 (insertPosAuxM i l1 p) := by
  induction l1 generalizing i p with
  | nil => simp [insertPosAuxM]
  | cons s rest ih =>
    simp only [List.cons_append, insertPosAuxM, List.length_cons, List.append_eq]
    rw [ih]
    have h2 : i + 1 + rest.length = i + (rest.length + 1) := by omega
    rw [h2]

theorem insertPosAuxM_no_fn (i : Nat) (l : List ModuleItem) (p : Nat)
    (h : ∀ it ∈ l, isFnModuleItem it = false) : insertPosAuxM i l p = p := by
  induction l generalizing i with
  | nil => rfl
  | cons it rest ih =>
    have hs := h it (List.mem_cons_self it rest)
    simp only [insertPosAuxM, hs, if_neg]
    exact ih (i + 1) fun t ht => h t (List.mem_cons_of_mem it ht)

theorem insertPosItems_no_fn (items : List ModuleItem)
    (h : ∀ it ∈ items, isFnModuleItem it = false) : insertPosItems items = 0 :=
  insertPosAuxM_no_fn 0 items 0 h

theorem insertPosItems_last_fn (pre : List ModuleItem) (fd : ModuleItem)
    (post : List ModuleItem) (hfd : isFnModuleItem fd = true)
    (hpost : ∀ it ∈ post, isFnModuleItem it = false) :
    insertPosItems (pre ++ fd :: post) = pre.length + 1 := by
  unfold insertPosItems
  rw [insertPosAuxM_append]
  simp only [insertPosAuxM, hfd, if_pos, Nat.zero_add]
  exact insertPosAuxM_no_fn _ post _ hpost

theorem insert_hoisted_module_items_eq (items : List ModuleItem) (hoisted : List Stmt) :
    insert_hoisted_module_items items hoisted =
      items.take (insertPosItems items) ++ hoisted.map ModuleItem.stmt ++
        items.drop (insertPosItems items) := by
  unfold insert_hoisted_module_items
  split
  · next h => simp_all
  · rfl


/-! ### Concrete programs used by the end-to-end statements -/

/-- `async function foo(a, b) { return await bar(a, b); }` as the only item
of a module. -/
def fooModule : List ModuleItem :=
  [ .stmt (.fnDecl "foo" (.mk ["a", "b"]
      (some [.ret (some (.awaitE (.call (.ident "bar") [.ident "a", .ident "b"])))])
      true false)) ]

/-- The transformed `foo`: `function foo() { return _foo.apply(this, arguments); }`. -/
def fooForwarder : ModuleItem :=
  .stmt (.fnDecl "foo" (.mk []
    (some [.ret (some (.call (.member (.ident "_foo") "apply")
      [.thisE, .ident "arguments"]))])
    false false))

/-- The hoisted helper:
`function _foo() { _foo = _ngAsyncToGenerator(function* (a, b) { return yield bar(a, b); }); return _foo.apply(this, arguments); }`. -/
def fooHelper : ModuleItem :=
  .stmt (.fnDecl "_foo" (.mk []
    (some
      [ .exprStmt (.assign "_foo" (.call (.ident "_ngAsyncToGenerator")
          [.fnE none (.mk ["a", "b"]
            (some [.ret (some (.yieldE
              (.call (.ident "bar") [.ident "a", .ident "b"]) false))])
            false true)])),
        .ret (some (.call (.member (.ident "_foo") "apply")
          [.thisE, .ident "arguments"])) ])
    false false))

/-- `var a = async () => 1; var b = async () => await x;`: the first async
arrow has no suspension and takes the fast path, but still consumes the
reference counter. -/
def fastPathModule : List ModuleItem :=
  [ .stmt (.varDecl "a" (some (.arrow [] true (.expr (.lit 1))))),
    .stmt (.varDecl "b" (some (.arrow [] true (.expr (.awaitE (.ident "x")))))) ]

/-- An expression-bodied arrow payload `f(await x)`: the suspension sits one
level below the top of the expression body. -/
def nestedAwaitArg : Expr := .call (.ident "f") [.awaitE (.ident "x")]

/-- The name of a module item when it is a (possibly exported) function
declaration. -/
def moduleItemFnName : ModuleItem → Option String
  | .stmt (.fnDecl n _) => some n
  | .exportFn n _ => some n
  | _ => none

/-- C1: the whole pass on `async function foo(a,b){ return await bar(a,b); }`
produces exactly the forwarder `foo` (empty parameter list, body
`return _foo.apply(this, arguments);`) followed by the helper `_foo` whose
body assigns `_foo = _ngAsyncToGenerator(function*(a,b){ return yield bar(a,b); })`
and then returns `_foo.apply(this, arguments)`. -/
theorem spec_C1 : visitModule fooModule = [fooForwarder, fooHelper] := by
  set_option maxRecDepth 10000 in rfl

/-- C8 (the failing side): for the expression-bodied async arrow
`async () => f(await x)` the depth-first probe reports a suspension, yet
`transform_arrow_fn` takes the fast path, merely clearing the async flag
and leaving the `await` in the body, because its expression-body check only
matches a bare top-level await. -/
theorem spec_C8 :
    hasAwaitArrowBody (.expr nestedAwaitArg) = true ∧
    arrowHasAwaitCheck (.expr nestedAwaitArg) = false ∧
    transform_arrow_fn ⟨[], true, .expr nestedAwaitArg⟩ "_ref" =
      .inl ⟨[], false, .expr nestedAwaitArg⟩ :=
  ⟨rfl, rfl, rfl⟩

/-- C9 (counterexample): in the pass over `fastPathModule` the first
counter value is consumed by the no-await arrow, so the only generated
reference name appearing in the output is `_ref1`; the bare base name
`_ref` appears nowhere. -/
theorem spec_C9_counterexample :
    mentionsItems "_ref" (visitModule fastPathModule) = false ∧
    mentionsItems "_ref1" (visitModule fastPathModule) = true := by
  set_option maxRecDepth 10000 in
  constructor <;> rfl

/-- If the depth-first probe finds no suspension in an arrow body, the
code's own (shallower) expression-body check cannot find one either. -/
theorem arrowHasAwaitCheck_of_probe (bd : ArrowBody)
    (h : hasAwaitArrowBody bd = false) : arrowHasAwaitCheck bd = false := by
  cases bd with
  | block b => simpa [hasAwaitArrowBody, arrowHasAwaitCheck] using h
  | expr e => cases e <;> simp_all [hasAwaitArrowBody, arrowHasAwaitCheck, hasAwaitE]

/-- C2: every construct transformer, applied to an async construct whose
body has no suspension outside nested function/arrow scopes, only clears
the async flag: no wrapper is built, no helper is produced, and the name,
parameters and body are untouched. -/
theorem spec_C2 :
    (∀ (d : FnDeclR) (b : List Stmt), d.function.isAsync = true →
      d.function.body = some b → hasAwaitStmts b = false →
      transform_fn_decl d = ({ d with function := d.function.setAsync false }, none)) ∧
    (∀ (fe : FnExprR) (b : List Stmt) (r : String), fe.function.isAsync = true →
      fe.function.body = some b → hasAwaitStmts b = false →
      transform_fn_expr fe r = .inl { fe with function := fe.function.setAsync false }) ∧
    (∀ (p : List String) (bd : ArrowBody) (r : String),
      hasAwaitArrowBody bd = false →
      transform_arrow_fn ⟨p, true, bd⟩ r = .inl ⟨p, false, bd⟩) ∧
    (∀ (m : ClassMethodR) (b : List Stmt), m.function.isAsync = true →
      m.function.body = some b → hasAwaitStmts b = false →
      transform_class_method m = { m with function := m.function.setAsync false }) ∧
    (∀ (m : MethodPropR) (b : List Stmt), m.function.isAsync = true →
      m.function.body = some b → hasAwaitStmts b = false →
      transform_object_method m = { m with function := m.function.setAsync false }) := by
  refine ⟨?_, ?_, ?_, ?_, ?_⟩
  · intro d b ha hb hn
    simp [transform_fn_decl, ha, hb, hn]
  · intro fe b r ha hb hn
    simp [transform_fn_expr, ha, hb, hn]
  · intro p bd r hn
    have hc := arrowHasAwaitCheck_of_probe bd hn
    simp [transform_arrow_fn, hc]
  · intro m b ha hb hn
    simp [transform_class_method, ha, hb, hn]
  · intro m b ha hb hn
    simp [transform_object_method, ha, hb, hn]

/-- Witness for C2 at concrete no-await constructs of all five shapes. -/
theorem spec_C2_witness :
    transform_fn_decl ⟨"g", .mk ["x"] (some [.ret (some (.ident "x"))]) true false⟩ =
      (⟨"g", .mk ["x"] (some [.ret (some (.ident "x"))]) false false⟩, none) ∧
    transform_fn_expr ⟨some "g", .mk ["x"] (some [.ret (some (.ident "x"))]) true false⟩ "_ref" =
      .inl ⟨some "g", .mk ["x"] (some [.ret (some (.ident "x"))]) false false⟩ ∧
    transform_arrow_fn ⟨["x"], true, .expr (.ident "x")⟩ "_ref" =
      .inl ⟨["x"], false, .expr (.ident "x")⟩ ∧
    transform_class_method ⟨"m", .mk ["x"] (some [.ret (some (.ident "x"))]) true false⟩ =
      ⟨"m", .mk ["x"] (some [.ret (some (.ident "x"))]) false false⟩ ∧
    transform_object_method ⟨"m", .mk ["x"] (some [.ret (some (.ident "x"))]) true false⟩ =
      ⟨"m", .mk ["x"] (some [.ret (some (.ident "x"))]) false false⟩ :=
  ⟨spec_C2.1 _ _ rfl rfl rfl,
   spec_C2.2.1 _ _ "_ref" rfl rfl rfl,
   spec_C2.2.2.1 ["x"] (.expr (.ident "x")) "_ref" rfl,
   spec_C2.2.2.2.1 _ _ rfl rfl rfl,
   spec_C2.2.2.2.2 _ _ rfl rfl rfl⟩

/-- An expression-bodied arrow payload `f(await x, this)`: it contains a
suspension (one level below the top) and references `this`. -/
def awaitThisArg : Expr := .call (.ident "f") [.awaitE (.ident "x"), .thisE]

/-- C3 (counterexample to the claim as stated): for the async arrow
`async () => f(await x, this)` the depth-first probe finds a suspension
and the body references `this`, yet `transform_arrow_fn` does not produce
the immediately-invoked context-forwarding wrapper — it takes the fast
path, merely clearing the async flag, because its expression-body check
only matches a bare top-level await. -/
theorem spec_C3_counterexample :
    hasAwaitArrowBody (.expr awaitThisArg) = true ∧
    hasThisStmts (arrowBodyToBlock (.expr awaitThisArg)) = true ∧
    transform_arrow_fn ⟨[], true, .expr awaitThisArg⟩ "_ref" =
      .inl ⟨[], false, .expr awaitThisArg⟩ :=
  ⟨rfl, rfl, rfl⟩

/-- C3 (as amended): an async arrow that the transformer's own suspension
check detects — a block body with a suspension outside nested
function/arrow scopes, or an expression body that is itself a bare
top-level await — whose (normalized) body uses `this` is rewritten to an
immediately-invoked wrapper that receives the enclosing context as the
explicit argument `this` at the invocation site, binds it to the parameter
`_this`, and whose inner forwarding function applies the generator wrapper
to `_this` (the captured binding), not to its own call-time `this`. -/
theorem spec_C3 (p : List String) (bd : ArrowBody) (r : String)
    (hAw : arrowHasAwaitCheck bd = true)
    (hThis : hasThisStmts (arrowBodyToBlock bd) = true) :
    transform_arrow_fn ⟨p, true, bd⟩ r =
      .inr (.call
        (.fnE none (.mk ["_this"]
          (some
            [ var_decl r (ng_async_wrapper (generator_fn_expr p
                (tcStmts (a2yStmts (arrowBodyToBlock bd))).1)),
              return_stmt (regular_fn_expr none
                [return_stmt (.call (.member (.ident r) "apply")
                  [.ident "_this", .ident "arguments"])]) ])
          false false))
        [.thisE]) := by
  simp [transform_arrow_fn, hAw, hThis, create_generator_function,
    iife_with_this_param, apply_call_with_captured_this, call_expr, member_expr,
    Func.params, Func.body, Option.getD]

/-- Witness for C3: `async () => { return await this.x(); }` with the
reference name `_ref`. -/
theorem spec_C3_witness :
    transform_arrow_fn
      ⟨[], true, .block [.ret (some (.awaitE (.call (.member .thisE "x") [])))]⟩
      "_ref" =
      .inr (.call
        (.fnE none (.mk ["_this"]
          (some
            [ var_decl "_ref" (ng_async_wrapper (generator_fn_expr []
                [.ret (some (.yieldE (.call (.member (.ident "_this") "x") []) false))])),
              return_stmt (regular_fn_expr none
                [return_stmt (.call (.member (.ident "_ref") "apply")
                  [.ident "_this", .ident "arguments"])]) ])
          false false))
        [.thisE]) :=
  spec_C3 [] (.block [.ret (some (.awaitE (.call (.member .thisE "x") [])))]) "_ref" rfl rfl

/-- C7: for an async class or object method with a suspension, the new body
is an optional `var _this = this;` — present exactly when the capture
rewriter replaced at least one `this` (equivalently, when the probe sees a
`this` in the original body, descending into arrows but not into nested
ordinary functions) — followed by a single `return` that immediately
invokes the wrapper built from the generator; after capture no `this`
remains visible in the generator body, and concretely `await this.fetch()`
becomes `yield _this.fetch()`. -/
theorem spec_C7 :
    (∀ (m : ClassMethodR) (b : List Stmt), m.function.isAsync = true →
      m.function.body = some b → hasAwaitStmts b = true →
      transform_class_method m =
        { key := m.key,
          function := .mk []
            (some ((if hasThisStmts b then [this_capture] else []) ++
              [return_stmt (immediate_call (ng_async_wrapper
                (generator_fn_expr [] (tcStmts (a2yStmts b)).1)))]))
            false m.function.isGenerator }) ∧
    (∀ (m : MethodPropR) (b : List Stmt), m.function.isAsync = true →
      m.function.body = some b → hasAwaitStmts b = true →
      transform_object_method m =
        { key := m.key,
          function := .mk []
            (some ((if hasThisStmts b then [this_capture] else []) ++
              [return_stmt (immediate_call (ng_async_wrapper
                (generator_fn_expr [] (tcStmts (a2yStmts b)).1)))]))
            false m.function.isGenerator }) ∧
    (∀ b : List Stmt, hasThisStmts (tcStmts (a2yStmts b)).1 = false) ∧
    create_generator_function []
        [.ret (some (.awaitE (.call (.member .thisE "fetch") [])))] true =
      (.mk []
        (some [.ret (some (.yieldE
          (.call (.member (.ident "_this") "fetch") []) false))])
        false true, true) := by
  refine ⟨?_, ?_, ?_, rfl⟩
  · intro m b ha hb hw
    cases m with
    | mk key f =>
      cases f with
      | mk ps bo a0 g0 =>
        simp only [Func.isAsync, Func.body] at ha hb
        subst ha
        subst hb
        simp [transform_class_method, Func.isAsync, Func.setAsync, hw, transform_method,
          create_generator_function, tcStmts_flag, hasThisStmts_a2yStmts,
          Func.params, Func.body, Option.getD, Func.isGenerator]
  · intro m b ha hb hw
    cases m with
    | mk key f =>
      cases f with
      | mk ps bo a0 g0 =>
        simp only [Func.isAsync, Func.body] at ha hb
        subst ha
        subst hb
        simp [transform_object_method, Func.isAsync, Func.setAsync, hw, transform_method,
          create_generator_function, tcStmts_flag, hasThisStmts_a2yStmts,
          Func.params, Func.body, Option.getD, Func.isGenerator]
  · intro b
    exact hasThis_tcStmts _

/-- Witness for C7: the class method
`async load() { return await this.fetch(); }`. -/
theorem spec_C7_witness :
    transform_class_method
      ⟨"load", .mk [] (some [.ret (some (.awaitE (.call (.member .thisE "fetch") [])))])
        true false⟩ =
      ⟨"load", .mk []
        (some
          [ this_capture,
            return_stmt (immediate_call (ng_async_wrapper (generator_fn_expr []
              [.ret (some (.yieldE (.call (.member (.ident "_this") "fetch") []) false))])))])
        false false⟩ :=
  spec_C7.1
    ⟨"load", .mk [] (some [.ret (some (.awaitE (.call (.member .thisE "fetch") [])))])
      true false⟩
    [.ret (some (.awaitE (.call (.member .thisE "fetch") [])))] rfl rfl rfl

/-- C10: transforming an async method with a suspension empties the outer
method's parameter list and builds the generator with no parameters, so no
original parameter survives in either signature. -/
theorem spec_C10 :
    (∀ (m : ClassMethodR) (b : List Stmt), m.function.isAsync = true →
      m.function.body = some b → hasAwaitStmts b = true →
      (transform_class_method m).function.params = [] ∧
      (transform_class_method m).function.body =
        some ((if hasThisStmts b then [this_capture] else []) ++
          [return_stmt (immediate_call (ng_async_wrapper
            (generator_fn_expr [] (tcStmts (a2yStmts b)).1)))]) ∧
      (∀ p, p ∈ m.function.params → p ∉ (transform_class_method m).function.params)) ∧
    (∀ (m : MethodPropR) (b : List Stmt), m.function.isAsync = true →
      m.function.body = some b → hasAwaitStmts b = true →
      (transform_object_method m).function.params = [] ∧
      (∀ p, p ∈ m.function.params → p ∉ (transform_object_method m).function.params)) := by
  constructor
  · intro m b ha hb hw
    cases m with
    | mk key f =>
      cases f with
      | mk ps bo a0 g0 =>
        simp only [Func.isAsync, Func.body] at ha hb
        subst ha
        subst hb
        refine ⟨?_, ?_, ?_⟩ <;>
          simp [transform_class_method, Func.isAsync, Func.setAsync, hw, transform_method,
            create_generator_function, tcStmts_flag, hasThisStmts_a2yStmts,
            Func.params, Func.body, Option.getD]
  · intro m b ha hb hw
    cases m with
    | mk key f =>
      cases f with
      | mk ps bo a0 g0 =>
        simp only [Func.isAsync, Func.body] at ha hb
        subst ha
        subst hb
        refine ⟨?_, ?_⟩ <;>
          simp [transform_object_method, Func.isAsync, Func.setAsync, hw, transform_method,
            create_generator_function, tcStmts_flag, hasThisStmts_a2yStmts,
            Func.params, Func.body, Option.getD]

/-- Witness for C10: `async run(u, v) { return await u; }` — the two
original parameters disappear from the rewritten method and its generator
takes none. -/
theorem spec_C10_witness :
    (transform_class_method
      ⟨"run", .mk ["u", "v"] (some [.ret (some (.awaitE (.ident "u")))]) true false⟩
      ).function.params = [] ∧
    ("u" ∈ ["u", "v"] → "u" ∉ (transform_class_method
      ⟨"run", .mk ["u", "v"] (some [.ret (some (.awaitE (.ident "u")))]) true false⟩
      ).function.params) :=
  ⟨(spec_C10.1
      ⟨"run", .mk ["u", "v"] (some [.ret (some (.awaitE (.ident "u")))]) true false⟩
      [.ret (some (.awaitE (.ident "u")))] rfl rfl rfl).1,
   fun h => (spec_C10.1
      ⟨"run", .mk ["u", "v"] (some [.ret (some (.awaitE (.ident "u")))]) true false⟩
      [.ret (some (.awaitE (.ident "u")))] rfl rfl rfl).2.2 "u" h⟩

/-- C4: the suspension rewriter leaves no `await` visible to the probe
(every await, however deeply nested in operands, is replaced), changes
nothing except turning `await e` into non-delegating `yield e` (the erasure
that identifies exactly these two forms is preserved), leaves nested
function and arrow nodes entirely untouched, and maps `await e` to
`yield (rewrite e) false` (same operand, delegate false). -/
theorem spec_C4 :
    (∀ body : List Stmt, hasAwaitStmts (a2yStmts body) = false) ∧
    (∀ body : List Stmt, eraseStmts (a2yStmts body) = eraseStmts body) ∧
    (∀ (n : Option String) (f : Func), a2yE (.fnE n f) = .fnE n f) ∧
    (∀ (p : List String) (a : Bool) (b : ArrowBody), a2yE (.arrow p a b) = .arrow p a b) ∧
    (∀ e : Expr, a2yE (.awaitE e) = .yieldE (a2yE e) false) :=
  ⟨hasAwaitStmts_a2yStmts, eraseStmts_a2yStmts,
   fun _ _ => rfl, fun _ _ _ => rfl, fun _ => rfl⟩

/-- A block statement, like any other scoped statement list, leaves the
surrounding scope stack exactly as it found it. -/
theorem visitStmt_block_stack (ss : List Stmt) (s : St) :
    (visitStmt (.block ss) s).2.stack = s.stack := by
  rcases hv : visitStmtList ss (enterScope s) with ⟨ss1, t⟩
  obtain ⟨hs, hst⟩ := visitStmtList_stack ss (enterScope s)
  rw [hv] at hst
  have hts : t.stack = hs :: s.stack := by
    have h5 : t.stack = topAppend ([] :: s.stack) hs := hst
    simpa [topAppend] using h5
  simp only [visitStmt, hv]
  rcases t with ⟨tst, tc⟩
  simp only at hts
  subst hts
  simp [exitScope]

/-- C6: scope discipline of the visitor.  Visiting an expression, a
function (its body list runs inside its own frame), a block statement or a
module-item list returns the scope stack unchanged — helpers born inside
are flushed at their own level — while visiting a single statement can do
nothing to the stack except append the helpers of its own function
declaration(s) to the innermost frame, the frame of the statement list
lexically containing it. -/
theorem spec_C6 :
    (∀ (e : Expr) (s : St), (visitExpr e s).2.stack = s.stack) ∧
    (∀ (f : Func) (s : St), (visitFunc f s).2.stack = s.stack) ∧
    (∀ (ss : List Stmt) (s : St), (visitStmt (.block ss) s).2.stack = s.stack) ∧
    (∀ (items : List ModuleItem) (s : St),
      (visitModuleItems items s).2.stack = s.stack) ∧
    (∀ (t : Stmt) (s : St), ∃ hs, (visitStmt t s).2.stack = topAppend s.stack hs) ∧
    (∀ (ss : List Stmt) (s : St),
      ∃ hs, (visitStmtList ss s).2.stack = topAppend s.stack hs) :=
  ⟨visitExpr_stack, visitFunc_stack, visitStmt_block_stack, visitModuleItems_stack,
   visitStmt_stack, visitStmtList_stack⟩

/-- C5: hoist placement splices the pending helpers, order preserved, at
the index one past the last function declaration of the sibling list (0 if
there is none) — for plain statement lists and for module-item lists, where
exported function declarations count — and on the one-async-declaration
module the output is exactly the two function declarations `foo`, `_foo`,
with the helper immediately after `foo`. -/
theorem spec_C5 :
    (∀ stmts hoisted : List Stmt, insert_hoisted_stmts stmts hoisted =
      stmts.take (insertPosStmts stmts) ++ hoisted ++ stmts.drop (insertPosStmts stmts)) ∧
    (∀ stmts : List Stmt, (∀ s ∈ stmts, isFnDeclStmt s = false) →
      insertPosStmts stmts = 0) ∧
    (∀ (pre : List Stmt) (fd : Stmt) (post : List Stmt), isFnDeclStmt fd = true →
      (∀ s ∈ post, isFnDeclStmt s = false) →
      insertPosStmts (pre ++ fd :: post) = pre.length + 1) ∧
    (∀ (items : List ModuleItem) (hoisted : List Stmt),
      insert_hoisted_module_items items hoisted =
        items.take (insertPosItems items) ++ hoisted.map ModuleItem.stmt ++
          items.drop (insertPosItems items)) ∧
    (∀ items : List ModuleItem, (∀ it ∈ items, isFnModuleItem it = false) →
      insertPosItems items = 0) ∧
    (∀ (pre : List ModuleItem) (fd : ModuleItem) (post : List ModuleItem),
      isFnModuleItem fd = true → (∀ it ∈ post, isFnModuleItem it = false) →
      insertPosItems (pre ++ fd :: post) = pre.length + 1) ∧
    (visitModule fooModule).map moduleItemFnName = [some "foo", some "_foo"] := by
  refine ⟨insert_hoisted_stmts_eq, insertPosStmts_no_fn, insertPosStmts_last_fn,
    insert_hoisted_module_items_eq, insertPosItems_no_fn, insertPosItems_last_fn, ?_⟩
  set_option maxRecDepth 10000 in rfl

/-- Witness for C5 at concrete lists: no function declaration gives index
0; a list whose single function declaration is first gives index 1; the
splice puts the helper right after it. -/
theorem spec_C5_witness :
    insertPosStmts [.ret none] = 0 ∧
    insertPosStmts [.fnDecl "g" (.mk [] none false false), .ret none] = 1 ∧
    insert_hoisted_stmts [.fnDecl "g" (.mk [] none false false), .ret none]
        [.fnDecl "_g" (.mk [] none false false)] =
      [.fnDecl "g" (.mk [] none false false), .fnDecl "_g" (.mk [] none false false),
        .ret none] ∧
    insertPosItems [.exportVar "c" none, .exportFn "g" (.mk [] none false false)] = 2 := by
  refine ⟨?_, ?_, ?_, ?_⟩
  · exact spec_C5.2.1 [.ret none] (by intro s hs; simp at hs; subst hs; rfl)
  · exact spec_C5.2.2.1 [] (.fnDecl "g" (.mk [] none false false)) [.ret none] rfl
      (by intro s hs; simp at hs; subst hs; rfl)
  · rw [spec_C5.1]
    rfl
  · exact spec_C5.2.2.2.2.2.1 [.exportVar "c" none]
      (.exportFn "g" (.mk [] none false false)) [] rfl (by intro it hit; simp at hit)

/-- C9 (amended): the names produced by successive states of the reference
counter are `_ref`, `_ref1`, `_ref2`, … — pairwise distinct, the bare base
name first, then strictly increasing integer suffixes; `RefCounter::next`
returns exactly the name for the current count and advances the count.
(The counter is also consumed by async arrows/function expressions that
take the no-await fast path, so the first name actually appearing in an
output may carry a suffix — see the counterexample.) -/
theorem spec_C9 :
    (∀ i j : Nat, i ≠ j → refNameAt i ≠ refNameAt j) ∧
    (∀ k : Nat, nextRef k = (refNameAt k, k + 1)) ∧
    refNameAt 0 = "_ref" ∧
    (∀ k : Nat, k ≠ 0 → refNameAt k = "_ref" ++ Nat.repr k) :=
  ⟨fun _ _ h => refNameAt_injective h,
   fun _ => rfl,
   rfl,
   fun k hk => by simp [refNameAt, hk]⟩

/-- Witness for C9: the first two counter names are distinct. -/
theorem spec_C9_witness : refNameAt 0 ≠ refNameAt 1 :=
  spec_C9.1 0 1 (by decide)

end Ng
